import Mathlib

/-!
# The object lifecycle adapter of `norman/lifecycle/object.go`

A shallow embedding of `objectLifecycleAdapter` (`sync`, `finalize`,
`initializeKey`, `initialize`) together with the properties of the
reconciliation protocol it implements.

Go objects are pointers; the embedding uses values.  A handler that mutates the
object it is given is modelled by a handler that returns the object as it left
it, and the store update that follows the handler call receives that value.
Handlers and the store client act on an abstract world state `σ`, and every
handler call and store update is appended to a trace.
-/

namespace Lifecycle

/-! ## Data model -/

/-- A Go `error` value; `Option Error` is a Go `error` that may be `nil`. -/
structure Error where
  msg : String
  deriving DecidableEq, Repr

/-- The generic metadata of an object (`metav1.Object`): the fields the adapter
reads and writes.  `labels = none` is the nil map. -/
structure ObjectMeta where
  name : String
  deletionTimestamp : Option Nat
  finalizers : List String
  labels : Option (List (String × String))
  deriving DecidableEq, Repr

/-- An object whose metadata can be accessed: its metadata and the rest of the
resource, which the adapter never inspects. -/
structure TypedObject where
  meta : ObjectMeta
  spec : Nat
  deriving DecidableEq, Repr

/-- A non-nil `runtime.Object`: either it carries metadata, or `meta.Accessor`
fails on it with the error `e`. -/
inductive RuntimeObject where
  | typed (t : TypedObject)
  | untyped (e : Error)
  deriving DecidableEq, Repr

/-- `meta.Accessor(obj)`. -/
def Accessor : RuntimeObject → Except Error TypedObject
  | .typed t => .ok t
  | .untyped e => .error e

/-- `obj.DeepCopyObject()`: with values a deep copy is the value itself. -/
def DeepCopyObject (obj : RuntimeObject) : RuntimeObject := obj

/-- `obj.DeepCopyObject()` of an object seen through its accessor. -/
def TypedObject.DeepCopyObject (t : TypedObject) : TypedObject := t

/-- Go map index `m[k]` on a non-nil `map[string]string` given by its bindings:
the value of the first binding of `k`, the empty string when there is none. -/
def bindingsIndex : List (String × String) → String → String
  | [], _ => ""
  | (k', v) :: rest, k => if k' = k then v else bindingsIndex rest k

/-- Go map index `m[k]` on a possibly nil `map[string]string`; indexing the nil
map yields the empty string. -/
def mapIndex (m : Option (List (String × String))) (k : String) : String :=
  match m with
  | none => ""
  | some bindings => bindingsIndex bindings k

/-- Go map assignment `m[k] = v` on a non-nil map: the binding of `k` is
replaced where it stands, or added when `k` has none. -/
def mapAssign : List (String × String) → String → String → List (String × String)
  | [], k, v => [(k, v)]
  | (k', v') :: rest, k, v =>
    if k' = k then (k, v) :: rest else (k', v') :: mapAssign rest k v

/-- Modelled from the spec: `slice.ContainsString` of `norman/types/slice`,
which is not among the sources; the spec reads it as "this adapter's finalizer
token is absent from `finalizers`", a linear membership scan. -/
def ContainsString : List String → String → Bool
  | [], _ => false
  | j :: rest, item => if j = item then true else ContainsString rest item

/-! ## Collaborators and effects -/

/-- What a handler call leaves behind: the object as the handler left it, the
returned error and the new world state. -/
structure HandlerResult (σ : Type) where
  obj : TypedObject
  err : Option Error
  st : σ

/-- The `ObjectLifecycle` interface. -/
structure ObjectLifecycle (σ : Type) where
  Initialize : TypedObject → σ → HandlerResult σ
  Finalize : TypedObject → σ → HandlerResult σ
  Updated : TypedObject → σ → HandlerResult σ

/-- What `objectClient.Update` returns: the stored object (which the adapter
discards), the error, and the new world state. -/
structure UpdateResult (σ : Type) where
  stored : Option RuntimeObject
  err : Option Error
  st : σ

/-- The part of `clientbase.ObjectClient` the adapter uses. -/
structure ObjectClient (σ : Type) where
  Update : String → TypedObject → σ → UpdateResult σ

/-- One observable action of the adapter: a handler call with the object passed
to it, or a store update with the name and the object passed to it. -/
inductive Event where
  | Initialize (arg : TypedObject)
  | Finalize (arg : TypedObject)
  | Updated (arg : TypedObject)
  | Update (name : String) (obj : TypedObject)
  deriving DecidableEq, Repr

/-- The world an invocation runs in: the collaborators' state and the actions
performed so far, oldest first. -/
structure World (σ : Type) where
  st : σ
  trace : List Event

/-! ## The adapter -/

/-- The package variable `initialized`. -/
def initialized : String := "io.cattle.lifecycle.initialized"

/-- The struct `objectLifecycleAdapter`. -/
structure objectLifecycleAdapter (σ : Type) where
  name : String
  lifecycle : ObjectLifecycle σ
  objectClient : ObjectClient σ

/-- The loop of `finalize` that rebuilds the finalizer slice: `acc` is
`finalizers` so far, the list is what remains of the range. -/
def stripLoop (name : String) : List String → List String → List String
  | [], acc => acc
  | finalizer :: rest, acc =>
    if finalizer = name then stripLoop name rest acc
    else stripLoop name rest (acc ++ [finalizer])

/-- The method `finalize`: returns `(cont, err)` and the world after it. -/
def objectLifecycleAdapter.finalize {σ : Type} (o : objectLifecycleAdapter σ)
    (metadata : TypedObject) (obj : RuntimeObject) (w : World σ) :
    (Bool × Option Error) × World σ :=
  if metadata.meta.deletionTimestamp = none then ((true, none), w)
  else if !ContainsString metadata.meta.finalizers o.name then ((false, none), w)
  else
    match Accessor (DeepCopyObject obj) with
    | .error err => ((false, some err), w)
    | .ok copy =>
      let finalizers := stripLoop o.name copy.meta.finalizers []
      let edited : TypedObject := { copy with meta := { copy.meta with finalizers := finalizers } }
      let h := o.lifecycle.Finalize edited w.st
      match h.err with
      | some err => ((false, some err), ⟨h.st, w.trace ++ [Event.Finalize edited]⟩)
      | none =>
        let u := o.objectClient.Update h.obj.meta.name h.obj h.st
        ((false, u.err),
          ⟨u.st, w.trace ++ [Event.Finalize edited, Event.Update h.obj.meta.name h.obj]⟩)

/-- The method `initializeKey`. -/
def objectLifecycleAdapter.initializeKey {σ : Type} (o : objectLifecycleAdapter σ) : String :=
  initialized ++ "." ++ o.name

/-- The method `initialize`: returns `(cont, err)` and the world after it. -/
def objectLifecycleAdapter.initialize {σ : Type} (o : objectLifecycleAdapter σ)
    (metadata : TypedObject) (obj : RuntimeObject) (w : World σ) :
    (Bool × Option Error) × World σ :=
  let initialized := o.initializeKey
  if mapIndex metadata.meta.labels initialized = "true" then ((true, none), w)
  else
    match Accessor (DeepCopyObject obj) with
    | .error err => ((false, some err), w)
    | .ok copy =>
      let labels : List (String × String) :=
        match copy.meta.labels with
        | none => []
        | some m => m
      let edited : TypedObject :=
        { copy with meta := { copy.meta with
            finalizers := copy.meta.finalizers ++ [o.name]
            labels := some (mapAssign labels initialized "true") } }
      let h := o.lifecycle.Initialize edited w.st
      match h.err with
      | some err => ((false, some err), ⟨h.st, w.trace ++ [Event.Initialize edited]⟩)
      | none =>
        let u := o.objectClient.Update h.obj.meta.name h.obj h.st
        ((false, u.err),
          ⟨u.st, w.trace ++ [Event.Initialize edited, Event.Update h.obj.meta.name h.obj]⟩)

/-- The method `sync`; `obj = none` is the nil object.  Returns the error and
the world after the invocation. -/
def objectLifecycleAdapter.sync {σ : Type} (o : objectLifecycleAdapter σ)
    (key : String) (obj : Option RuntimeObject) (w : World σ) : Option Error × World σ :=
  match obj with
  | none => (none, w)
  | some obj =>
    match Accessor obj with
    | .error err => (some err, w)
    | .ok metadata =>
      let f := o.finalize metadata obj w
      if f.1.2 ≠ none ∨ !f.1.1 then (f.1.2, f.2)
      else
        let i := o.initialize metadata obj f.2
        if i.1.2 ≠ none ∨ !i.1.1 then (i.1.2, i.2)
        else
          let copy := metadata.DeepCopyObject
          let h := o.lifecycle.Updated copy i.2.st
          (h.err, ⟨h.st, i.2.trace ++ [Event.Updated copy]⟩)

/-! ## Reading a trace -/

/-- The handler calls of a trace, in order. -/
def handlerCalls (tr : List Event) : List Event :=
  tr.filter fun ev =>
    match ev with
    | .Update _ _ => false
    | _ => true

/-- The objects handed to the store update in a trace, in order. -/
def storeUpdates : List Event → List TypedObject
  | [] => []
  | .Update _ obj :: rest => obj :: storeUpdates rest
  | _ :: rest => storeUpdates rest

/-- The objects passed to `Initialize` in a trace, in order. -/
def initializeCalls : List Event → List TypedObject
  | [] => []
  | .Initialize arg :: rest => arg :: initializeCalls rest
  | _ :: rest => initializeCalls rest

/-- The objects passed to `Finalize` in a trace, in order. -/
def finalizeCalls : List Event → List TypedObject
  | [] => []
  | .Finalize arg :: rest => arg :: finalizeCalls rest
  | _ :: rest => finalizeCalls rest

/-- The objects passed to `Updated` in a trace, in order. -/
def updatedCalls : List Event → List TypedObject
  | [] => []
  | .Updated arg :: rest => arg :: updatedCalls rest
  | _ :: rest => updatedCalls rest

/-- The actions one invocation of `sync` performs from collaborator state `s`. -/
def actions {σ : Type} (o : objectLifecycleAdapter σ) (key : String)
    (obj : Option RuntimeObject) (s : σ) : List Event :=
  ( o.sync key obj ⟨s, []⟩).2.trace

/-- The error one invocation of `sync` returns from collaborator state `s`. -/
def result {σ : Type} (o : objectLifecycleAdapter σ) (key : String)
    (obj : Option RuntimeObject) (s : σ) : Option Error :=
  ( o.sync key obj ⟨s, []⟩).1

/-! ## Sample collaborators -/

/-- A handler that succeeds and leaves the object as it is. -/
def okHandler : ObjectLifecycle Unit where
  Initialize := fun t s => ⟨t, none, s⟩
  Finalize := fun t s => ⟨t, none, s⟩
  Updated := fun t s => ⟨t, none, s⟩

/-- A handler whose three operations fail with the same error. -/
def failingHandler (e : Error) : ObjectLifecycle Unit where
  Initialize := fun t s => ⟨t, some e, s⟩
  Finalize := fun t s => ⟨t, some e, s⟩
  Updated := fun t s => ⟨t, some e, s⟩

/-- A store whose update succeeds and returns the object it was given. -/
def okClient : ObjectClient Unit where
  Update := fun _ t s => ⟨some (.typed t), none, s⟩

/-- A store whose update fails with `e`. -/
def failingClient (e : Error) : ObjectClient Unit where
  Update := fun _ _ s => ⟨none, some e, s⟩

/-- The adapter `x-adapter` over the succeeding collaborators. -/
def xAdapter : objectLifecycleAdapter Unit := ⟨"x-adapter", okHandler, okClient⟩

/-- Scenario A's object: live, no finalizers, empty label map. -/
def scenarioA : TypedObject := ⟨⟨"x", none, [], some []⟩, 0⟩

/-- The object `finalize` edits before it calls the handler, for adapter name
`n`: the copy with every finalizer equal to `n` removed. -/
def stripped (n : String) (t : TypedObject) : TypedObject :=
  { t with meta := { t.meta with
      finalizers := t.meta.finalizers.filter fun f => decide (f ≠ n) } }

/-- The label map with the binding of `k` set to `"true"`, a nil map counting
as an empty one. -/
def markLabels (labels : Option (List (String × String))) (k : String) :
    Option (List (String × String)) :=
  match labels with
  | none => some (mapAssign [] k "true")
  | some m => some (mapAssign m k "true")

/-- The object `initialize` edits before it calls the handler, for adapter name
`n` and marker key `k`: the copy with `n` appended to the finalizers and the
label `k` set to `"true"`. -/
def marked (n k : String) (t : TypedObject) : TypedObject :=
  { t with meta := { t.meta with
      finalizers := t.meta.finalizers ++ [n]
      labels := markLabels t.meta.labels k } }

/-- The error of the handler call recorded by an event, when that call is made
in collaborator state `s`; a store update is no handler call. -/
def handlerErr {σ : Type} (o : objectLifecycleAdapter σ) (ev : Event) (s : σ) : Option Error :=
  match ev with
  | .Initialize arg => (o.lifecycle.Initialize arg s).err
  | .Finalize arg => (o.lifecycle.Finalize arg s).err
  | .Updated arg => (o.lifecycle.Updated arg s).err
  | .Update _ _ => none

/-- The outcome of the handler call recorded by an event, when that call is made
in collaborator state `s`; a store update is no handler call. -/
def handlerRun {σ : Type} (o : objectLifecycleAdapter σ) (ev : Event) (s : σ) :
    Option (HandlerResult σ) :=
  match ev with
  | .Initialize arg => some (o.lifecycle.Initialize arg s)
  | .Finalize arg => some (o.lifecycle.Finalize arg s)
  | .Updated arg => some (o.lifecycle.Updated arg s)
  | .Update _ _ => none

/-- An object being deleted that carries the token of `x-adapter` twice, among
the tokens of other adapters, and the marker label. -/
def deletingOwned : TypedObject :=
  ⟨⟨"x", some 1, ["a", "x-adapter", "b", "x-adapter"],
    some [("io.cattle.lifecycle.initialized.x-adapter", "true")]⟩, 0⟩

/-- A live object that carries the token of `x-adapter` but no marker label
(its label map is nil). -/
def tokenWithoutMarker : TypedObject := ⟨⟨"x", none, ["x-adapter"], none⟩, 0⟩

/-- Scenario A's object after its first reconcile. -/
def scenarioB : TypedObject :=
  ⟨⟨"x", none, ["x-adapter"], some [("io.cattle.lifecycle.initialized.x-adapter", "true")]⟩, 0⟩

/-- Scenario C's object: Scenario A's result with the deletion marker set. -/
def scenarioC : TypedObject :=
  ⟨⟨"x", some 1, ["x-adapter"], some [("io.cattle.lifecycle.initialized.x-adapter", "true")]⟩, 0⟩

/-- Scenario D's object: being deleted, with only another adapter's token. -/
def scenarioD : TypedObject := ⟨⟨"x", some 1, ["other-adapter"], none⟩, 0⟩

/-- The object an event carries: the argument of a handler call, or the object
handed to a store update. -/
def Event.object : Event → TypedObject
  | .Initialize arg => arg
  | .Finalize arg => arg
  | .Updated arg => arg
  | .Update _ obj => obj

/-- The store recording a deletion marker `ts` on an object. -/
def setDeletionTimestamp (ts : Nat) (t : TypedObject) : TypedObject :=
  { t with meta := { t.meta with deletionTimestamp := some ts } }

/-- A handler that succeeds and whose `Initialize` and `Finalize` append the
token `other-adapter` to the finalizers of the object they are given. -/
def meddlingHandler : ObjectLifecycle Unit where
  Initialize := fun t s =>
    ⟨{ t with meta := { t.meta with finalizers := t.meta.finalizers ++ ["other-adapter"] } },
      none, s⟩
  Finalize := fun t s =>
    ⟨{ t with meta := { t.meta with finalizers := t.meta.finalizers ++ ["other-adapter"] } },
      none, s⟩
  Updated := fun t s => ⟨t, none, s⟩

/-- The adapter `x-adapter` over the handler that appends another adapter's
token. -/
def meddledAdapter : objectLifecycleAdapter Unit := ⟨"x-adapter", meddlingHandler, okClient⟩

/-! ## Lemmas on the helpers -/

theorem stripLoop_eq (n : String) (l acc : List String) :
    stripLoop n l acc = acc ++ l.filter fun f => decide (f ≠ n) := by
  induction l generalizing acc with
  | nil => simp [stripLoop]
  | cons f rest ih =>
    by_cases h : f = n
    · simp [stripLoop, h, ih]
    · simp [stripLoop, h, ih]

theorem containsString_iff (l : List String) (x : String) :
    ContainsString l x = true ↔ x ∈ l := by
  induction l with
  | nil => simp [ContainsString]
  | cons j rest ih =>
    by_cases h : j = x
    · simp [ContainsString, h]
    · have h2 : ¬ x = j := fun e => h e.symm
      simp [ContainsString, h, h2, ih]

theorem bindingsIndex_mapAssign (m : List (String × String)) (k v k2 : String) :
    bindingsIndex (mapAssign m k v) k2 = if k2 = k then v else bindingsIndex m k2 := by
  induction m with
  | nil =>
    by_cases h : k = k2
    · simp [mapAssign, bindingsIndex, h]
    · have h2 : ¬ k2 = k := fun e => h e.symm
      simp [mapAssign, bindingsIndex, h, h2]
  | cons b rest ih =>
    obtain ⟨k1, v1⟩ := b
    by_cases h1 : k1 = k
    · by_cases h : k = k2
      · simp [mapAssign, bindingsIndex, h1, h]
      · have h2 : ¬ k2 = k := fun e => h e.symm
        simp [mapAssign, bindingsIndex, h1, h, h2]
    · by_cases h : k1 = k2
      · have h3 : ¬ k2 = k := fun e => h1 (h.trans e)
        simp [mapAssign, bindingsIndex, h1, h, h3]
      · simp [mapAssign, bindingsIndex, h1, h, ih]

theorem mapIndex_markLabels (labels : Option (List (String × String))) (k k2 : String) :
    mapIndex (markLabels labels k) k2 = if k2 = k then "true" else mapIndex labels k2 := by
  cases labels with
  | none =>
    by_cases h : k2 = k
    · simp [markLabels, mapIndex, bindingsIndex_mapAssign, h]
    · have h2 : ¬ k = k2 := fun e => h e.symm
      simp [markLabels, mapIndex, bindingsIndex_mapAssign, bindingsIndex, h, h2]
  | some m => simp only [markLabels, mapIndex, bindingsIndex_mapAssign]

/-! ## The four branches of `sync` -/

theorem sync_nil {σ : Type} (o : objectLifecycleAdapter σ) (key : String) (w : World σ) :
    o.sync key none w = (none, w) := rfl

theorem sync_untyped {σ : Type} (o : objectLifecycleAdapter σ) (key : String) (e : Error)
    (w : World σ) : o.sync key (some (.untyped e)) w = (some e, w) := rfl

theorem sync_skip {σ : Type} (o : objectLifecycleAdapter σ) (key : String) (t : TypedObject)
    (w : World σ) (hd : t.meta.deletionTimestamp ≠ none) (hc : o.name ∉ t.meta.finalizers) :
    o.sync key (some (.typed t)) w = (none, w) := by
  have hc2 : ContainsString t.meta.finalizers o.name = false := by
    rw [← Bool.not_eq_true, containsString_iff]; exact hc
  simp [objectLifecycleAdapter.sync, objectLifecycleAdapter.finalize, Accessor, hd, hc2]

theorem sync_finalize_err {σ : Type} (o : objectLifecycleAdapter σ) (key : String)
    (t : TypedObject) (w : World σ) (e : Error)
    (hd : t.meta.deletionTimestamp ≠ none) (hc : o.name ∈ t.meta.finalizers)
    (he : (o.lifecycle.Finalize (stripped o.name t) w.st).err = some e) :
    o.sync key (some (.typed t)) w =
      (some e, ⟨(o.lifecycle.Finalize (stripped o.name t) w.st).st,
        w.trace ++ [Event.Finalize (stripped o.name t)]⟩) := by
  have hc2 : ContainsString t.meta.finalizers o.name = true := (containsString_iff _ _).2 hc
  simp only [stripped, decide_not] at he
  simp [objectLifecycleAdapter.sync, objectLifecycleAdapter.finalize, Accessor, DeepCopyObject,
    hd, hc2, stripLoop_eq, stripped, he]

theorem sync_finalize_ok {σ : Type} (o : objectLifecycleAdapter σ) (key : String)
    (t : TypedObject) (w : World σ)
    (hd : t.meta.deletionTimestamp ≠ none) (hc : o.name ∈ t.meta.finalizers)
    (he : (o.lifecycle.Finalize (stripped o.name t) w.st).err = none) :
    o.sync key (some (.typed t)) w =
      ((o.objectClient.Update (o.lifecycle.Finalize (stripped o.name t) w.st).obj.meta.name
          (o.lifecycle.Finalize (stripped o.name t) w.st).obj
          (o.lifecycle.Finalize (stripped o.name t) w.st).st).err,
        ⟨(o.objectClient.Update (o.lifecycle.Finalize (stripped o.name t) w.st).obj.meta.name
          (o.lifecycle.Finalize (stripped o.name t) w.st).obj
          (o.lifecycle.Finalize (stripped o.name t) w.st).st).st,
        w.trace ++ [Event.Finalize (stripped o.name t),
          Event.Update (o.lifecycle.Finalize (stripped o.name t) w.st).obj.meta.name
            (o.lifecycle.Finalize (stripped o.name t) w.st).obj]⟩) := by
  have hc2 : ContainsString t.meta.finalizers o.name = true := (containsString_iff _ _).2 hc
  simp only [stripped, decide_not] at he
  simp [objectLifecycleAdapter.sync, objectLifecycleAdapter.finalize, Accessor, DeepCopyObject,
    hd, hc2, stripLoop_eq, stripped, he]

theorem sync_initialize_err {σ : Type} (o : objectLifecycleAdapter σ) (key : String)
    (t : TypedObject) (w : World σ) (e : Error)
    (hd : t.meta.deletionTimestamp = none)
    (hl : mapIndex t.meta.labels o.initializeKey ≠ "true")
    (he : (o.lifecycle.Initialize (marked o.name o.initializeKey t) w.st).err = some e) :
    o.sync key (some (.typed t)) w =
      (some e, ⟨(o.lifecycle.Initialize (marked o.name o.initializeKey t) w.st).st,
        w.trace ++ [Event.Initialize (marked o.name o.initializeKey t)]⟩) := by
  obtain ⟨⟨nm, del, fin, lab⟩, sp⟩ := t
  simp only at hd hl
  subst hd
  cases lab with
  | none =>
    simp only [marked, markLabels] at he
    simp [objectLifecycleAdapter.sync, objectLifecycleAdapter.finalize,
      objectLifecycleAdapter.initialize, Accessor, DeepCopyObject, hl, marked, markLabels, he]
  | some m =>
    simp only [marked, markLabels] at he
    simp [objectLifecycleAdapter.sync, objectLifecycleAdapter.finalize,
      objectLifecycleAdapter.initialize, Accessor, DeepCopyObject, hl, marked, markLabels, he]

theorem sync_initialize_ok {σ : Type} (o : objectLifecycleAdapter σ) (key : String)
    (t : TypedObject) (w : World σ)
    (hd : t.meta.deletionTimestamp = none)
    (hl : mapIndex t.meta.labels o.initializeKey ≠ "true")
    (he : (o.lifecycle.Initialize (marked o.name o.initializeKey t) w.st).err = none) :
    o.sync key (some (.typed t)) w =
      ((o.objectClient.Update
          (o.lifecycle.Initialize (marked o.name o.initializeKey t) w.st).obj.meta.name
          (o.lifecycle.Initialize (marked o.name o.initializeKey t) w.st).obj
          (o.lifecycle.Initialize (marked o.name o.initializeKey t) w.st).st).err,
        ⟨(o.objectClient.Update
          (o.lifecycle.Initialize (marked o.name o.initializeKey t) w.st).obj.meta.name
          (o.lifecycle.Initialize (marked o.name o.initializeKey t) w.st).obj
          (o.lifecycle.Initialize (marked o.name o.initializeKey t) w.st).st).st,
        w.trace ++ [Event.Initialize (marked o.name o.initializeKey t),
          Event.Update (o.lifecycle.Initialize (marked o.name o.initializeKey t) w.st).obj.meta.name
            (o.lifecycle.Initialize (marked o.name o.initializeKey t) w.st).obj]⟩) := by
  obtain ⟨⟨nm, del, fin, lab⟩, sp⟩ := t
  simp only at hd hl
  subst hd
  cases lab with
  | none =>
    simp only [marked, markLabels] at he
    simp [objectLifecycleAdapter.sync, objectLifecycleAdapter.finalize,
      objectLifecycleAdapter.initialize, Accessor, DeepCopyObject, hl, marked, markLabels, he]
  | some m =>
    simp only [marked, markLabels] at he
    simp [objectLifecycleAdapter.sync, objectLifecycleAdapter.finalize,
      objectLifecycleAdapter.initialize, Accessor, DeepCopyObject, hl, marked, markLabels, he]

theorem sync_updated {σ : Type} (o : objectLifecycleAdapter σ) (key : String)
    (t : TypedObject) (w : World σ)
    (hd : t.meta.deletionTimestamp = none)
    (hl : mapIndex t.meta.labels o.initializeKey = "true") :
    o.sync key (some (.typed t)) w =
      ((o.lifecycle.Updated t w.st).err,
        ⟨(o.lifecycle.Updated t w.st).st, w.trace ++ [Event.Updated t]⟩) := by
  simp [objectLifecycleAdapter.sync, objectLifecycleAdapter.finalize,
    objectLifecycleAdapter.initialize, Accessor, TypedObject.DeepCopyObject, hd, hl]

/-- Every invocation of `sync` on an object with metadata takes exactly one of
six paths; each path fixes the returned error and the actions appended to the
trace. -/
theorem sync_paths {σ : Type} (o : objectLifecycleAdapter σ) (key : String)
    (t : TypedObject) (w : World σ) :
    ∃ evs, ( o.sync key (some (.typed t)) w).2.trace = w.trace ++ evs ∧
      ((t.meta.deletionTimestamp ≠ none ∧ o.name ∉ t.meta.finalizers ∧ evs = [] ∧
          ( o.sync key (some (.typed t)) w).1 = none) ∨
       (t.meta.deletionTimestamp ≠ none ∧ o.name ∈ t.meta.finalizers ∧
          (∃ e, (o.lifecycle.Finalize (stripped o.name t) w.st).err = some e ∧
            ( o.sync key (some (.typed t)) w).1 = some e) ∧
          evs = [Event.Finalize (stripped o.name t)]) ∨
       (t.meta.deletionTimestamp ≠ none ∧ o.name ∈ t.meta.finalizers ∧
          (o.lifecycle.Finalize (stripped o.name t) w.st).err = none ∧
          evs = [Event.Finalize (stripped o.name t),
            Event.Update (o.lifecycle.Finalize (stripped o.name t) w.st).obj.meta.name
              (o.lifecycle.Finalize (stripped o.name t) w.st).obj] ∧
          ( o.sync key (some (.typed t)) w).1 =
            (o.objectClient.Update (o.lifecycle.Finalize (stripped o.name t) w.st).obj.meta.name
              (o.lifecycle.Finalize (stripped o.name t) w.st).obj
              (o.lifecycle.Finalize (stripped o.name t) w.st).st).err) ∨
       (t.meta.deletionTimestamp = none ∧ mapIndex t.meta.labels o.initializeKey ≠ "true" ∧
          (∃ e, (o.lifecycle.Initialize (marked o.name o.initializeKey t) w.st).err = some e ∧
            ( o.sync key (some (.typed t)) w).1 = some e) ∧
          evs = [Event.Initialize (marked o.name o.initializeKey t)]) ∨
       (t.meta.deletionTimestamp = none ∧ mapIndex t.meta.labels o.initializeKey ≠ "true" ∧
          (o.lifecycle.Initialize (marked o.name o.initializeKey t) w.st).err = none ∧
          evs = [Event.Initialize (marked o.name o.initializeKey t),
            Event.Update
              (o.lifecycle.Initialize (marked o.name o.initializeKey t) w.st).obj.meta.name
              (o.lifecycle.Initialize (marked o.name o.initializeKey t) w.st).obj] ∧
          ( o.sync key (some (.typed t)) w).1 =
            (o.objectClient.Update
              (o.lifecycle.Initialize (marked o.name o.initializeKey t) w.st).obj.meta.name
              (o.lifecycle.Initialize (marked o.name o.initializeKey t) w.st).obj
              (o.lifecycle.Initialize (marked o.name o.initializeKey t) w.st).st).err) ∨
       (t.meta.deletionTimestamp = none ∧ mapIndex t.meta.labels o.initializeKey = "true" ∧
          evs = [Event.Updated t] ∧
          ( o.sync key (some (.typed t)) w).1 = (o.lifecycle.Updated t w.st).err)) := by
  by_cases hd : t.meta.deletionTimestamp = none
  · by_cases hl : mapIndex t.meta.labels o.initializeKey = "true"
    · refine ⟨[Event.Updated t], ?_, ?_⟩
      · rw [sync_updated o key t w hd hl]
      · rw [sync_updated o key t w hd hl]
        exact Or.inr (Or.inr (Or.inr (Or.inr (Or.inr ⟨hd, hl, rfl, rfl⟩))))
    · rcases Option.eq_none_or_eq_some
          (o.lifecycle.Initialize (marked o.name o.initializeKey t) w.st).err with he | ⟨e, he⟩
      · refine ⟨[Event.Initialize (marked o.name o.initializeKey t),
            Event.Update
              (o.lifecycle.Initialize (marked o.name o.initializeKey t) w.st).obj.meta.name
              (o.lifecycle.Initialize (marked o.name o.initializeKey t) w.st).obj], ?_, ?_⟩
        · rw [sync_initialize_ok o key t w hd hl he]
        · rw [sync_initialize_ok o key t w hd hl he]
          exact Or.inr (Or.inr (Or.inr (Or.inr (Or.inl ⟨hd, hl, he, rfl, rfl⟩))))
      · refine ⟨[Event.Initialize (marked o.name o.initializeKey t)], ?_, ?_⟩
        · rw [sync_initialize_err o key t w e hd hl he]
        · rw [sync_initialize_err o key t w e hd hl he]
          exact Or.inr (Or.inr (Or.inr (Or.inl ⟨hd, hl, ⟨e, he, rfl⟩, rfl⟩)))
  · by_cases hc : o.name ∈ t.meta.finalizers
    · rcases Option.eq_none_or_eq_some
          (o.lifecycle.Finalize (stripped o.name t) w.st).err with he | ⟨e, he⟩
      · refine ⟨[Event.Finalize (stripped o.name t),
            Event.Update (o.lifecycle.Finalize (stripped o.name t) w.st).obj.meta.name
              (o.lifecycle.Finalize (stripped o.name t) w.st).obj], ?_, ?_⟩
        · rw [sync_finalize_ok o key t w hd hc he]
        · rw [sync_finalize_ok o key t w hd hc he]
          exact Or.inr (Or.inr (Or.inl ⟨hd, hc, he, rfl, rfl⟩))
      · refine ⟨[Event.Finalize (stripped o.name t)], ?_, ?_⟩
        · rw [sync_finalize_err o key t w e hd hc he]
        · rw [sync_finalize_err o key t w e hd hc he]
          exact Or.inr (Or.inl ⟨hd, hc, ⟨e, he, rfl⟩, rfl⟩)
    · refine ⟨[], ?_, ?_⟩
      · rw [sync_skip o key t w hd hc]; simp
      · rw [sync_skip o key t w hd hc]
        exact Or.inl ⟨hd, hc, rfl, rfl⟩

/-! ## The finalize phase -/

/-- C1: for every adapter name and every object with metadata whose deletion
marker is present and whose finalizer list contains the name, the first action
of `sync` is a call of `Handler.Finalize`, and the object passed to it has the
input's finalizer list with every element equal to the name removed, the others
in their original order: the token is stripped before the handler is called. -/
theorem finalize_receives_stripped_finalizers {σ : Type} (o : objectLifecycleAdapter σ)
    (key : String) (t : TypedObject) (w : World σ)
    (hd : t.meta.deletionTimestamp ≠ none) (hc : o.name ∈ t.meta.finalizers) :
    ∃ arg rest, ( o.sync key (some (.typed t)) w).2.trace = w.trace ++ Event.Finalize arg :: rest ∧
      arg.meta.finalizers = t.meta.finalizers.filter (fun f => f ≠ o.name) ∧
      o.name ∉ arg.meta.finalizers ∧
      List.Sublist arg.meta.finalizers t.meta.finalizers ∧
      finalizeCalls (Event.Finalize arg :: rest) = [arg] := by
  have hfilter : (stripped o.name t).meta.finalizers =
      t.meta.finalizers.filter (fun f => f ≠ o.name) := rfl
  have hnot : o.name ∉ (stripped o.name t).meta.finalizers := by
    rw [hfilter]; simp [List.mem_filter]
  have hsub : List.Sublist (stripped o.name t).meta.finalizers t.meta.finalizers := by
    rw [hfilter]; exact List.filter_sublist _
  rcases Option.eq_none_or_eq_some
      (o.lifecycle.Finalize (stripped o.name t) w.st).err with he | ⟨e, he⟩
  · refine ⟨stripped o.name t,
      [Event.Update (o.lifecycle.Finalize (stripped o.name t) w.st).obj.meta.name
        (o.lifecycle.Finalize (stripped o.name t) w.st).obj], ?_, hfilter, hnot, hsub, rfl⟩
    rw [sync_finalize_ok o key t w hd hc he]
  · exact ⟨stripped o.name t, [], by rw [sync_finalize_err o key t w e hd hc he],
      hfilter, hnot, hsub, rfl⟩

/-- Witness of C1 on an object that carries the token twice. -/
theorem finalize_receives_stripped_finalizers_witness :
    ∃ arg rest, ( xAdapter.sync "k" (some (.typed deletingOwned)) ⟨(), []⟩).2.trace =
        [] ++ Event.Finalize arg :: rest ∧
      arg.meta.finalizers = deletingOwned.meta.finalizers.filter (fun f => f ≠ xAdapter.name) ∧
      xAdapter.name ∉ arg.meta.finalizers ∧
      List.Sublist arg.meta.finalizers deletingOwned.meta.finalizers ∧
      finalizeCalls (Event.Finalize arg :: rest) = [arg] :=
  finalize_receives_stripped_finalizers xAdapter "k" deletingOwned ⟨(), []⟩
    (by decide) (by decide)

/-- C2: for every object with metadata whose deletion marker is present and
whose finalizer list contains the adapter's token, any number of times, if
`Handler.Finalize` succeeds and does not alter the finalizer list, then one
invocation of `sync` calls `Finalize` exactly once and no other handler method,
issues exactly one store update, and the object handed to that update contains
no occurrence of the token. -/
theorem finalize_once_then_one_update_without_token {σ : Type} (o : objectLifecycleAdapter σ)
    (key : String) (t : TypedObject) (w : World σ)
    (hd : t.meta.deletionTimestamp ≠ none) (hc : o.name ∈ t.meta.finalizers)
    (hok : (o.lifecycle.Finalize (stripped o.name t) w.st).err = none)
    (hkeep : (o.lifecycle.Finalize (stripped o.name t) w.st).obj.meta.finalizers =
      (stripped o.name t).meta.finalizers) :
    ∃ evs, ( o.sync key (some (.typed t)) w).2.trace = w.trace ++ evs ∧
      (finalizeCalls evs).length = 1 ∧
      (handlerCalls evs).length = 1 ∧
      ∃ stored, storeUpdates evs = [stored] ∧
        stored.meta.finalizers.count o.name = 0 ∧ o.name ∉ stored.meta.finalizers := by
  have hnot : o.name ∉ (o.lifecycle.Finalize (stripped o.name t) w.st).obj.meta.finalizers := by
    rw [hkeep]; simp [stripped, List.mem_filter]
  refine ⟨[Event.Finalize (stripped o.name t),
      Event.Update (o.lifecycle.Finalize (stripped o.name t) w.st).obj.meta.name
        (o.lifecycle.Finalize (stripped o.name t) w.st).obj], ?_, rfl, rfl,
    (o.lifecycle.Finalize (stripped o.name t) w.st).obj, rfl, ?_, hnot⟩
  · rw [sync_finalize_ok o key t w hd hc hok]
  · exact List.count_eq_zero.2 hnot

/-- Witness of C2 on an object that carries the token twice. -/
theorem finalize_once_then_one_update_without_token_witness :
    ∃ evs, ( xAdapter.sync "k" (some (.typed deletingOwned)) ⟨(), []⟩).2.trace = [] ++ evs ∧
      (finalizeCalls evs).length = 1 ∧
      (handlerCalls evs).length = 1 ∧
      ∃ stored, storeUpdates evs = [stored] ∧
        stored.meta.finalizers.count xAdapter.name = 0 ∧
        xAdapter.name ∉ stored.meta.finalizers :=
  finalize_once_then_one_update_without_token xAdapter "k" deletingOwned ⟨(), []⟩
    (by decide) (by decide) rfl rfl

/-! ## The initialize phase -/

/-- C3: for every adapter name `n` and every object with metadata, no deletion
marker and a label `"io.cattle.lifecycle.initialized." ++ n` that is not
`"true"` (a nil label map included), the first action of `sync` is a call of
`Handler.Initialize` on an object whose finalizer list is the input's with `n`
appended at the end and whose label map is non-nil and is the input's with that
key set to `"true"`; if `Initialize` succeeds, the only further action is one
store update, issued with that same object as the handler left it, and
`Updated` is not called. -/
theorem initialize_receives_marked_object {σ : Type} (o : objectLifecycleAdapter σ)
    (key : String) (t : TypedObject) (w : World σ)
    (hd : t.meta.deletionTimestamp = none)
    (hl : mapIndex t.meta.labels ("io.cattle.lifecycle.initialized." ++ o.name) ≠ "true") :
    ∃ arg rest,
      ( o.sync key (some (.typed t)) w).2.trace = w.trace ++ Event.Initialize arg :: rest ∧
      arg.meta.finalizers = t.meta.finalizers ++ [o.name] ∧
      arg.meta.labels = some (mapAssign (t.meta.labels.getD [])
        ("io.cattle.lifecycle.initialized." ++ o.name) "true") ∧
      (∀ k, mapIndex arg.meta.labels k =
        if k = "io.cattle.lifecycle.initialized." ++ o.name then "true"
        else mapIndex t.meta.labels k) ∧
      ((o.lifecycle.Initialize arg w.st).err = none →
        rest = [Event.Update (o.lifecycle.Initialize arg w.st).obj.meta.name
          (o.lifecycle.Initialize arg w.st).obj] ∧
        storeUpdates (Event.Initialize arg :: rest) = [(o.lifecycle.Initialize arg w.st).obj] ∧
        ((o.lifecycle.Initialize arg w.st).obj = arg →
          storeUpdates (Event.Initialize arg :: rest) = [arg]) ∧
        updatedCalls (Event.Initialize arg :: rest) = []) := by
  have hkey : o.initializeKey = "io.cattle.lifecycle.initialized." ++ o.name := rfl
  rw [← hkey] at hl ⊢
  have hlabels : (marked o.name o.initializeKey t).meta.labels =
      some (mapAssign (t.meta.labels.getD []) o.initializeKey "true") := by
    cases hlab : t.meta.labels <;> simp [marked, markLabels, hlab]
  have hindex : ∀ k, mapIndex (marked o.name o.initializeKey t).meta.labels k =
      if k = o.initializeKey then "true" else mapIndex t.meta.labels k :=
    fun k => mapIndex_markLabels t.meta.labels o.initializeKey k
  rcases Option.eq_none_or_eq_some
      (o.lifecycle.Initialize (marked o.name o.initializeKey t) w.st).err with he | ⟨e, he⟩
  · refine ⟨marked o.name o.initializeKey t,
      [Event.Update (o.lifecycle.Initialize (marked o.name o.initializeKey t) w.st).obj.meta.name
        (o.lifecycle.Initialize (marked o.name o.initializeKey t) w.st).obj],
      ?_, rfl, hlabels, hindex, ?_⟩
    · rw [sync_initialize_ok o key t w hd hl he]
    · intro _
      refine ⟨rfl, rfl, ?_, rfl⟩
      intro hsame
      simp [storeUpdates, hsame]
  · refine ⟨marked o.name o.initializeKey t, [], ?_, rfl, hlabels, hindex, ?_⟩
    · rw [sync_initialize_err o key t w e hd hl he]
    · intro hnone
      rw [he] at hnone
      cases hnone

/-- Witness of C3: Scenario A. -/
theorem initialize_receives_marked_object_witness :
    ∃ arg rest,
      ( xAdapter.sync "k" (some (.typed scenarioA)) ⟨(), []⟩).2.trace =
        [] ++ Event.Initialize arg :: rest ∧
      arg.meta.finalizers = [] ++ ["x-adapter"] ∧
      arg.meta.labels = some (mapAssign ((some []).getD [])
        ("io.cattle.lifecycle.initialized." ++ "x-adapter") "true") ∧
      (∀ k, mapIndex arg.meta.labels k =
        if k = "io.cattle.lifecycle.initialized." ++ "x-adapter" then "true"
        else mapIndex (some []) k) ∧
      ((okHandler.Initialize arg ()).err = none →
        rest = [Event.Update (okHandler.Initialize arg ()).obj.meta.name
          (okHandler.Initialize arg ()).obj] ∧
        storeUpdates (Event.Initialize arg :: rest) = [(okHandler.Initialize arg ()).obj] ∧
        ((okHandler.Initialize arg ()).obj = arg →
          storeUpdates (Event.Initialize arg :: rest) = [arg]) ∧
        updatedCalls (Event.Initialize arg :: rest) = []) :=
  initialize_receives_marked_object xAdapter "k" scenarioA ⟨(), []⟩ rfl (by decide)

/-- C4, counterexample: a live object whose marker label is not `"true"` but
whose finalizer list already holds the token; `Initialize` succeeds and leaves
the object untouched, and the object handed to the store update holds the token
twice. -/
theorem initialize_duplicates_existing_token :
    tokenWithoutMarker.meta.deletionTimestamp = none ∧
    mapIndex tokenWithoutMarker.meta.labels xAdapter.initializeKey ≠ "true" ∧
    (∀ arg s, (xAdapter.lifecycle.Initialize arg s).err = none ∧
      (xAdapter.lifecycle.Initialize arg s).obj = arg) ∧
    ∃ stored, storeUpdates (actions xAdapter "k" (some (.typed tokenWithoutMarker)) ()) = [stored] ∧
      mapIndex stored.meta.labels xAdapter.initializeKey = "true" ∧
      stored.meta.finalizers.count xAdapter.name = 2 ∧
      ¬ stored.meta.finalizers.count xAdapter.name = 1 ∧
      ¬ stored.meta.finalizers.Nodup :=
  ⟨rfl, by decide, fun _ _ => ⟨rfl, rfl⟩,
    ⟨⟨"x", none, ["x-adapter", "x-adapter"],
      some [("io.cattle.lifecycle.initialized.x-adapter", "true")]⟩, 0⟩,
    by decide, by decide, by decide, by decide, by decide⟩

/-- C4, amended: for every object with metadata, no deletion marker and a
marker label that is not `"true"`, after one `sync` in which
`Handler.Initialize` succeeds and leaves the metadata untouched, the object
handed to the single store update has the marker label `"true"` and holds the
adapter's token once more than the input's finalizer list did: exactly once
when the input's list did not hold the token. -/
theorem initialize_persists_marker_and_one_more_token {σ : Type} (o : objectLifecycleAdapter σ)
    (key : String) (t : TypedObject) (w : World σ)
    (hd : t.meta.deletionTimestamp = none)
    (hl : mapIndex t.meta.labels o.initializeKey ≠ "true")
    (hok : (o.lifecycle.Initialize (marked o.name o.initializeKey t) w.st).err = none)
    (hkeep : (o.lifecycle.Initialize (marked o.name o.initializeKey t) w.st).obj.meta =
      (marked o.name o.initializeKey t).meta) :
    ∃ evs, ( o.sync key (some (.typed t)) w).2.trace = w.trace ++ evs ∧
      (initializeCalls evs).length = 1 ∧
      ∃ stored, storeUpdates evs = [stored] ∧
        mapIndex stored.meta.labels o.initializeKey = "true" ∧
        stored.meta.finalizers.count o.name = t.meta.finalizers.count o.name + 1 ∧
        (o.name ∉ t.meta.finalizers → stored.meta.finalizers.count o.name = 1) := by
  have hcount : (o.lifecycle.Initialize (marked o.name o.initializeKey t) w.st
      ).obj.meta.finalizers.count o.name = t.meta.finalizers.count o.name + 1 := by
    rw [hkeep]; simp [marked]
  refine ⟨[Event.Initialize (marked o.name o.initializeKey t),
      Event.Update (o.lifecycle.Initialize (marked o.name o.initializeKey t) w.st).obj.meta.name
        (o.lifecycle.Initialize (marked o.name o.initializeKey t) w.st).obj], ?_, rfl,
    (o.lifecycle.Initialize (marked o.name o.initializeKey t) w.st).obj, rfl, ?_, hcount, ?_⟩
  · rw [sync_initialize_ok o key t w hd hl hok]
  · rw [hkeep]
    have h := mapIndex_markLabels t.meta.labels o.initializeKey o.initializeKey
    simpa [marked] using h
  · intro hnot
    rw [hcount, List.count_eq_zero.2 hnot]

/-- Witness of the amended C4: Scenario A. -/
theorem initialize_persists_marker_and_one_more_token_witness :
    ∃ evs, ( xAdapter.sync "k" (some (.typed scenarioA)) ⟨(), []⟩).2.trace = [] ++ evs ∧
      (initializeCalls evs).length = 1 ∧
      ∃ stored, storeUpdates evs = [stored] ∧
        mapIndex stored.meta.labels xAdapter.initializeKey = "true" ∧
        stored.meta.finalizers.count xAdapter.name = scenarioA.meta.finalizers.count xAdapter.name + 1 ∧
        (xAdapter.name ∉ scenarioA.meta.finalizers →
          stored.meta.finalizers.count xAdapter.name = 1) :=
  initialize_persists_marker_and_one_more_token xAdapter "k" scenarioA ⟨(), []⟩
    rfl (by decide) rfl rfl

/-! ## One invocation from an empty trace -/

/-- The six paths of `sync`, read through `actions` and `result`. -/
theorem actions_paths {σ : Type} (o : objectLifecycleAdapter σ) (key : String)
    (t : TypedObject) (s : σ) :
    (t.meta.deletionTimestamp ≠ none ∧ o.name ∉ t.meta.finalizers ∧
        actions o key (some (.typed t)) s = [] ∧ result o key (some (.typed t)) s = none) ∨
    (t.meta.deletionTimestamp ≠ none ∧ o.name ∈ t.meta.finalizers ∧
        (∃ e, (o.lifecycle.Finalize (stripped o.name t) s).err = some e ∧
          result o key (some (.typed t)) s = some e) ∧
        actions o key (some (.typed t)) s = [Event.Finalize (stripped o.name t)]) ∨
    (t.meta.deletionTimestamp ≠ none ∧ o.name ∈ t.meta.finalizers ∧
        (o.lifecycle.Finalize (stripped o.name t) s).err = none ∧
        actions o key (some (.typed t)) s = [Event.Finalize (stripped o.name t),
          Event.Update (o.lifecycle.Finalize (stripped o.name t) s).obj.meta.name
            (o.lifecycle.Finalize (stripped o.name t) s).obj] ∧
        result o key (some (.typed t)) s =
          (o.objectClient.Update (o.lifecycle.Finalize (stripped o.name t) s).obj.meta.name
            (o.lifecycle.Finalize (stripped o.name t) s).obj
            (o.lifecycle.Finalize (stripped o.name t) s).st).err) ∨
    (t.meta.deletionTimestamp = none ∧ mapIndex t.meta.labels o.initializeKey ≠ "true" ∧
        (∃ e, (o.lifecycle.Initialize (marked o.name o.initializeKey t) s).err = some e ∧
          result o key (some (.typed t)) s = some e) ∧
        actions o key (some (.typed t)) s =
          [Event.Initialize (marked o.name o.initializeKey t)]) ∨
    (t.meta.deletionTimestamp = none ∧ mapIndex t.meta.labels o.initializeKey ≠ "true" ∧
        (o.lifecycle.Initialize (marked o.name o.initializeKey t) s).err = none ∧
        actions o key (some (.typed t)) s = [Event.Initialize (marked o.name o.initializeKey t),
          Event.Update (o.lifecycle.Initialize (marked o.name o.initializeKey t) s).obj.meta.name
            (o.lifecycle.Initialize (marked o.name o.initializeKey t) s).obj] ∧
        result o key (some (.typed t)) s =
          (o.objectClient.Update
            (o.lifecycle.Initialize (marked o.name o.initializeKey t) s).obj.meta.name
            (o.lifecycle.Initialize (marked o.name o.initializeKey t) s).obj
            (o.lifecycle.Initialize (marked o.name o.initializeKey t) s).st).err) ∨
    (t.meta.deletionTimestamp = none ∧ mapIndex t.meta.labels o.initializeKey = "true" ∧
        actions o key (some (.typed t)) s = [Event.Updated t] ∧
        result o key (some (.typed t)) s = (o.lifecycle.Updated t s).err) := by
  obtain ⟨evs, htr, h⟩ := sync_paths o key t ⟨s, []⟩
  have hact : actions o key (some (.typed t)) s = evs := by
    simpa [actions] using htr
  rw [hact]
  exact h

theorem actions_nil {σ : Type} (o : objectLifecycleAdapter σ) (key : String) (s : σ) :
    actions o key none s = [] ∧ result o key none s = none := ⟨rfl, rfl⟩

theorem actions_untyped {σ : Type} (o : objectLifecycleAdapter σ) (key : String) (e : Error)
    (s : σ) : actions o key (some (.untyped e)) s = [] ∧
      result o key (some (.untyped e)) s = some e := ⟨rfl, rfl⟩

/-! ## The updated phase and the choice of handler method -/

/-- C5: for every object with metadata, `sync` calls `Handler.Updated` if and
only if the deletion marker is absent and the adapter's initialization-marker
label equals `"true"`; in that case `Updated` is the only action, called once
on the object, `sync` returns exactly its result, and no store update is
issued. -/
theorem updated_iff_live_and_marked {σ : Type} (o : objectLifecycleAdapter σ) (key : String)
    (t : TypedObject) (s : σ) :
    (updatedCalls (actions o key (some (.typed t)) s) ≠ [] ↔
      (t.meta.deletionTimestamp = none ∧
        mapIndex t.meta.labels ("io.cattle.lifecycle.initialized." ++ o.name) = "true")) ∧
    (updatedCalls (actions o key (some (.typed t)) s) ≠ [] →
      actions o key (some (.typed t)) s = [Event.Updated t] ∧
      updatedCalls (actions o key (some (.typed t)) s) = [t] ∧
      result o key (some (.typed t)) s = (o.lifecycle.Updated t s).err ∧
      storeUpdates (actions o key (some (.typed t)) s) = []) := by
  have hkey : o.initializeKey = "io.cattle.lifecycle.initialized." ++ o.name := rfl
  rw [← hkey]
  rcases actions_paths o key t s with
    ⟨hd, _, ha, _⟩ | ⟨hd, _, _, ha⟩ | ⟨hd, _, _, ha, _⟩ | ⟨_, hl, _, ha⟩ |
    ⟨_, hl, _, ha, _⟩ | ⟨hd, hl, ha, hr⟩
  · rw [ha]; simp [updatedCalls, hd]
  · rw [ha]; simp [updatedCalls, hd]
  · rw [ha]; simp [updatedCalls, hd]
  · rw [ha]; simp [updatedCalls, hl]
  · rw [ha]; simp [updatedCalls, hl]
  · rw [ha, hr]; simp [updatedCalls, storeUpdates, hd, hl]

/-- C6: for every object with metadata, `sync` calls `Handler.Initialize` if
and only if the deletion marker is absent and the adapter's
initialization-marker label is not exactly `"true"`; an object that carries the
marker `"true"` never has `Initialize` called, and neither has an object with a
deletion marker, whatever its labels and finalizers. -/
theorem initialize_iff_live_and_unmarked {σ : Type} (o : objectLifecycleAdapter σ)
    (key : String) (t : TypedObject) (s : σ) :
    (initializeCalls (actions o key (some (.typed t)) s) ≠ [] ↔
      (t.meta.deletionTimestamp = none ∧
        mapIndex t.meta.labels ("io.cattle.lifecycle.initialized." ++ o.name) ≠ "true")) ∧
    (mapIndex t.meta.labels ("io.cattle.lifecycle.initialized." ++ o.name) = "true" →
      initializeCalls (actions o key (some (.typed t)) s) = []) ∧
    (t.meta.deletionTimestamp ≠ none →
      initializeCalls (actions o key (some (.typed t)) s) = []) ∧
    (initializeCalls (actions o key (some (.typed t)) s)).length ≤ 1 := by
  have hkey : o.initializeKey = "io.cattle.lifecycle.initialized." ++ o.name := rfl
  rw [← hkey]
  rcases actions_paths o key t s with
    ⟨hd, _, ha, _⟩ | ⟨hd, _, _, ha⟩ | ⟨hd, _, _, ha, _⟩ | ⟨hd, hl, _, ha⟩ |
    ⟨hd, hl, _, ha, _⟩ | ⟨hd, hl, ha, _⟩
  · rw [ha]; simp [initializeCalls, hd]
  · rw [ha]; simp [initializeCalls, hd]
  · rw [ha]; simp [initializeCalls, hd]
  · rw [ha]; simp [initializeCalls, hd, hl]
  · rw [ha]; simp [initializeCalls, hd, hl]
  · rw [ha]; simp [initializeCalls, hd, hl]

/-! ## Errors and side effects -/

/-- C7: for every object (nil, without metadata, or with metadata) and every
handler, if the handler method that `sync` invokes returns an error `e`, then
`sync` returns exactly `e`, issues no store update, and that call is the only
handler call of the invocation. -/
theorem handler_error_is_returned_without_update {σ : Type} (o : objectLifecycleAdapter σ)
    (key : String) (obj : Option RuntimeObject) (s : σ) (ev : Event) (e : Error)
    (hev : ev ∈ handlerCalls (actions o key obj s))
    (herr : handlerErr o ev s = some e) :
    result o key obj s = some e ∧
    storeUpdates (actions o key obj s) = [] ∧
    handlerCalls (actions o key obj s) = [ev] ∧
    actions o key obj s = [ev] := by
  cases obj with
  | none => simp [(actions_nil o key s).1, handlerCalls] at hev
  | some ro =>
    cases ro with
    | untyped e2 => simp [(actions_untyped o key e2 s).1, handlerCalls] at hev
    | typed t =>
      rcases actions_paths o key t s with
        ⟨_, _, ha, _⟩ | ⟨_, _, ⟨e2, he, hr⟩, ha⟩ | ⟨_, _, he, ha, _⟩ |
        ⟨_, _, ⟨e2, he, hr⟩, ha⟩ | ⟨_, _, he, ha, _⟩ | ⟨_, _, ha, hr⟩
      · simp [ha, handlerCalls] at hev
      · rw [ha] at hev ⊢
        simp [handlerCalls] at hev
        subst hev
        simp only [handlerErr] at herr
        rw [he] at herr
        rw [hr, herr]
        simp [storeUpdates, handlerCalls]
      · rw [ha] at hev
        simp [handlerCalls] at hev
        subst hev
        simp only [handlerErr] at herr
        rw [he] at herr
        cases herr
      · rw [ha] at hev ⊢
        simp [handlerCalls] at hev
        subst hev
        simp only [handlerErr] at herr
        rw [he] at herr
        rw [hr, herr]
        simp [storeUpdates, handlerCalls]
      · rw [ha] at hev
        simp [handlerCalls] at hev
        subst hev
        simp only [handlerErr] at herr
        rw [he] at herr
        cases herr
      · rw [ha] at hev ⊢
        simp [handlerCalls] at hev
        subst hev
        simp only [handlerErr] at herr
        rw [hr, herr]
        simp [storeUpdates, handlerCalls]

/-- Witness of C7: `Finalize` fails on an object being deleted that holds the
token. -/
theorem handler_error_is_returned_without_update_witness :
    result ⟨"x-adapter", failingHandler ⟨"boom"⟩, okClient⟩ "k" (some (.typed scenarioC)) () =
      some ⟨"boom"⟩ ∧
    storeUpdates (actions ⟨"x-adapter", failingHandler ⟨"boom"⟩, okClient⟩ "k"
      (some (.typed scenarioC)) ()) = [] ∧
    handlerCalls (actions ⟨"x-adapter", failingHandler ⟨"boom"⟩, okClient⟩ "k"
      (some (.typed scenarioC)) ()) = [Event.Finalize (stripped "x-adapter" scenarioC)] ∧
    actions ⟨"x-adapter", failingHandler ⟨"boom"⟩, okClient⟩ "k" (some (.typed scenarioC)) () =
      [Event.Finalize (stripped "x-adapter" scenarioC)] :=
  handler_error_is_returned_without_update ⟨"x-adapter", failingHandler ⟨"boom"⟩, okClient⟩ "k"
    (some (.typed scenarioC)) () (Event.Finalize (stripped "x-adapter" scenarioC)) ⟨"boom"⟩
    (by decide) rfl

/-- C8: for every object on which `sync` calls `Finalize` or `Initialize` and
that call succeeds, the only further action is the store update of the object
as the handler left it, `sync` returns exactly the error of that update (none
on success, any error verbatim), and no later phase runs whatever the update
returns. -/
theorem update_result_is_returned {σ : Type} (o : objectLifecycleAdapter σ)
    (key : String) (obj : Option RuntimeObject) (s : σ) (ev : Event) (h : HandlerResult σ)
    (hev : ev ∈ actions o key obj s)
    (hkind : (∃ arg, ev = Event.Finalize arg) ∨ (∃ arg, ev = Event.Initialize arg))
    (hrun : handlerRun o ev s = some h)
    (hok : h.err = none) :
    actions o key obj s = [ev, Event.Update h.obj.meta.name h.obj] ∧
    result o key obj s = (o.objectClient.Update h.obj.meta.name h.obj h.st).err ∧
    updatedCalls (actions o key obj s) = [] ∧
    (handlerCalls (actions o key obj s)).length = 1 := by
  cases obj with
  | none => simp [(actions_nil o key s).1] at hev
  | some ro =>
    cases ro with
    | untyped e2 => simp [(actions_untyped o key e2 s).1] at hev
    | typed t =>
      rcases actions_paths o key t s with
        ⟨_, _, ha, _⟩ | ⟨_, _, ⟨e2, he, _⟩, ha⟩ | ⟨_, _, he, ha, hr⟩ |
        ⟨_, _, ⟨e2, he, _⟩, ha⟩ | ⟨_, _, he, ha, hr⟩ | ⟨_, _, ha, _⟩
      · simp [ha] at hev
      · rw [ha] at hev
        simp at hev
        subst hev
        simp only [handlerRun, Option.some.injEq] at hrun
        subst hrun
        rw [he] at hok
        cases hok
      · rw [ha] at hev ⊢
        simp at hev
        rcases hev with hev | hev
        · subst hev
          simp only [handlerRun, Option.some.injEq] at hrun
          subst hrun
          rw [hr]
          simp [updatedCalls, handlerCalls]
        · subst hev
          simp [handlerRun] at hrun
      · rw [ha] at hev
        simp at hev
        subst hev
        simp only [handlerRun, Option.some.injEq] at hrun
        subst hrun
        rw [he] at hok
        cases hok
      · rw [ha] at hev ⊢
        simp at hev
        rcases hev with hev | hev
        · subst hev
          simp only [handlerRun, Option.some.injEq] at hrun
          subst hrun
          rw [hr]
          simp [updatedCalls, handlerCalls]
        · subst hev
          simp [handlerRun] at hrun
      · rw [ha] at hev
        simp at hev
        subst hev
        rcases hkind with ⟨a, hk⟩ | ⟨a, hk⟩ <;> cases hk

/-- Witness of C8: `Finalize` succeeds and the store answers with an error,
which `sync` returns. -/
theorem update_result_is_returned_witness :
    actions ⟨"x-adapter", okHandler, failingClient ⟨"not found"⟩⟩ "k"
        (some (.typed scenarioC)) () =
      [Event.Finalize (stripped "x-adapter" scenarioC),
        Event.Update (stripped "x-adapter" scenarioC).meta.name (stripped "x-adapter" scenarioC)] ∧
    result ⟨"x-adapter", okHandler, failingClient ⟨"not found"⟩⟩ "k"
        (some (.typed scenarioC)) () =
      ((failingClient ⟨"not found"⟩).Update (stripped "x-adapter" scenarioC).meta.name
        (stripped "x-adapter" scenarioC) ()).err ∧
    updatedCalls (actions ⟨"x-adapter", okHandler, failingClient ⟨"not found"⟩⟩ "k"
        (some (.typed scenarioC)) ()) = [] ∧
    (handlerCalls (actions ⟨"x-adapter", okHandler, failingClient ⟨"not found"⟩⟩ "k"
        (some (.typed scenarioC)) ())).length = 1 :=
  update_result_is_returned ⟨"x-adapter", okHandler, failingClient ⟨"not found"⟩⟩ "k"
    (some (.typed scenarioC)) () (Event.Finalize (stripped "x-adapter" scenarioC))
    ⟨stripped "x-adapter" scenarioC, none, ()⟩ (by decide) (Or.inl ⟨_, rfl⟩) rfl rfl

/-- C9: for every input object (nil, without metadata, or with metadata),
handler and store, one invocation of `sync` makes at most one handler call and
at most one store update, and never makes both a store update and a call of
`Updated`. -/
theorem at_most_one_handler_call_and_one_update {σ : Type} (o : objectLifecycleAdapter σ)
    (key : String) (obj : Option RuntimeObject) (s : σ) :
    (handlerCalls (actions o key obj s)).length ≤ 1 ∧
    (storeUpdates (actions o key obj s)).length ≤ 1 ∧
    ¬ (storeUpdates (actions o key obj s) ≠ [] ∧ updatedCalls (actions o key obj s) ≠ []) ∧
    (actions o key obj s).length ≤ 2 := by
  cases obj with
  | none => simp [(actions_nil o key s).1, handlerCalls, storeUpdates]
  | some ro =>
    cases ro with
    | untyped e => simp [(actions_untyped o key e s).1, handlerCalls, storeUpdates]
    | typed t =>
      rcases actions_paths o key t s with
        ⟨_, _, ha, _⟩ | ⟨_, _, _, ha⟩ | ⟨_, _, _, ha, _⟩ |
        ⟨_, _, _, ha⟩ | ⟨_, _, _, ha, _⟩ | ⟨_, _, ha, _⟩ <;>
      · rw [ha]
        simp [handlerCalls, storeUpdates, updatedCalls]

/-! ## The marker and the token -/

/-- C10, counterexample: an object being deleted on which the marker label is
`"true"` and the token is in the finalizer list satisfies "marker if and only
if token"; `Finalize` succeeds and leaves the object untouched, and the object
handed to the store update carries the marker but not the token. -/
theorem finalize_keeps_marker_without_token :
    (mapIndex scenarioC.meta.labels xAdapter.initializeKey = "true" ↔
      xAdapter.name ∈ scenarioC.meta.finalizers) ∧
    (∀ arg s, (xAdapter.lifecycle.Finalize arg s).obj = arg) ∧
    ∃ stored, stored ∈ storeUpdates (actions xAdapter "k" (some (.typed scenarioC)) ()) ∧
      mapIndex stored.meta.labels xAdapter.initializeKey = "true" ∧
      xAdapter.name ∉ stored.meta.finalizers ∧
      ¬ (mapIndex stored.meta.labels xAdapter.initializeKey = "true" ↔
        xAdapter.name ∈ stored.meta.finalizers) :=
  ⟨by decide, fun _ _ => rfl,
    ⟨⟨"x", some 1, [], some [("io.cattle.lifecycle.initialized.x-adapter", "true")]⟩, 0⟩,
    by decide, by decide, by decide, by decide⟩

/-- C10, amended: for every object with metadata and no deletion marker on
which the marker label is `"true"` if and only if the token is in the finalizer
list, every object that `sync` hands to the store update, with a handler that
leaves the metadata untouched, has the marker label `"true"` and the token in
its finalizer list, so "marker if and only if token" holds of it. -/
theorem live_update_has_marker_iff_token {σ : Type} (o : objectLifecycleAdapter σ)
    (key : String) (t : TypedObject) (s : σ)
    (hd : t.meta.deletionTimestamp = none)
    (_hinv : mapIndex t.meta.labels o.initializeKey = "true" ↔ o.name ∈ t.meta.finalizers)
    (hkeep : ∀ arg s2, (o.lifecycle.Initialize arg s2).obj.meta = arg.meta)
    (stored : TypedObject)
    (hstored : stored ∈ storeUpdates (actions o key (some (.typed t)) s)) :
    mapIndex stored.meta.labels o.initializeKey = "true" ∧
    o.name ∈ stored.meta.finalizers ∧
    (mapIndex stored.meta.labels o.initializeKey = "true" ↔
      o.name ∈ stored.meta.finalizers) := by
  have hmark : mapIndex (marked o.name o.initializeKey t).meta.labels o.initializeKey = "true" := by
    have h := mapIndex_markLabels t.meta.labels o.initializeKey o.initializeKey
    simpa [marked] using h
  have htok : o.name ∈ (marked o.name o.initializeKey t).meta.finalizers := by
    simp [marked]
  rcases actions_paths o key t s with
    ⟨hd2, _⟩ | ⟨hd2, _⟩ | ⟨hd2, _⟩ | ⟨_, _, _, ha⟩ | ⟨_, _, _, ha, _⟩ | ⟨_, _, ha, _⟩
  · exact absurd hd hd2
  · exact absurd hd hd2
  · exact absurd hd hd2
  · simp [ha, storeUpdates] at hstored
  · rw [ha] at hstored
    simp [storeUpdates] at hstored
    subst hstored
    rw [hkeep]
    exact ⟨hmark, htok, iff_of_true hmark htok⟩
  · simp [ha, storeUpdates] at hstored

/-- Witness of the amended C10: Scenario A. -/
theorem live_update_has_marker_iff_token_witness :
    mapIndex (marked "x-adapter" xAdapter.initializeKey scenarioA).meta.labels
        xAdapter.initializeKey = "true" ∧
    xAdapter.name ∈ (marked "x-adapter" xAdapter.initializeKey scenarioA).meta.finalizers ∧
    (mapIndex (marked "x-adapter" xAdapter.initializeKey scenarioA).meta.labels
        xAdapter.initializeKey = "true" ↔
      xAdapter.name ∈ (marked "x-adapter" xAdapter.initializeKey scenarioA).meta.finalizers) :=
  live_update_has_marker_iff_token xAdapter "k" scenarioA () rfl (by decide)
    (fun _ _ => rfl) (marked "x-adapter" xAdapter.initializeKey scenarioA) (by decide)

/-! ## Invocations that do nothing -/

/-- C11: for every object with metadata whose deletion marker is present and
whose finalizer list does not contain the adapter's token, whatever its labels,
`sync` returns success, calls no handler method and issues no store update: the
world is left as it was. -/
theorem deleting_without_token_is_noop {σ : Type} (o : objectLifecycleAdapter σ)
    (key : String) (t : TypedObject) (w : World σ)
    (hd : t.meta.deletionTimestamp ≠ none) (hc : o.name ∉ t.meta.finalizers) :
    o.sync key (some (.typed t)) w = (none, w) ∧
    result o key (some (.typed t)) w.st = none ∧
    handlerCalls (actions o key (some (.typed t)) w.st) = [] ∧
    storeUpdates (actions o key (some (.typed t)) w.st) = [] ∧
    actions o key (some (.typed t)) w.st = [] := by
  have hact : actions o key (some (.typed t)) w.st = [] := by
    simp [actions, sync_skip o key t ⟨w.st, []⟩ hd hc]
  have hres : result o key (some (.typed t)) w.st = none := by
    simp [result, sync_skip o key t ⟨w.st, []⟩ hd hc]
  refine ⟨sync_skip o key t w hd hc, hres, ?_, ?_, hact⟩
  · rw [hact]; rfl
  · rw [hact]; rfl

/-- Witness of C11: Scenario D. -/
theorem deleting_without_token_is_noop_witness :
    xAdapter.sync "k" (some (.typed scenarioD)) ⟨(), []⟩ = (none, ⟨(), []⟩) ∧
    result xAdapter "k" (some (.typed scenarioD)) () = none ∧
    handlerCalls (actions xAdapter "k" (some (.typed scenarioD)) ()) = [] ∧
    storeUpdates (actions xAdapter "k" (some (.typed scenarioD)) ()) = [] ∧
    actions xAdapter "k" (some (.typed scenarioD)) () = [] :=
  deleting_without_token_is_noop xAdapter "k" scenarioD ⟨(), []⟩ (by decide) (by decide)

/-- C12: for every key, `sync` called with the nil object returns success at
once, with no handler call and no store update: the world is left as it
was. -/
theorem nil_object_is_noop {σ : Type} (o : objectLifecycleAdapter σ) (key : String)
    (w : World σ) :
    o.sync key none w = (none, w) ∧
    result o key none w.st = none ∧
    handlerCalls (actions o key none w.st) = [] ∧
    storeUpdates (actions o key none w.st) = [] ∧
    actions o key none w.st = [] :=
  ⟨rfl, rfl, rfl, rfl, rfl⟩

/-- C16: for every non-nil object whose metadata accessor fails with error `e`,
`sync` returns `e` at once, calls no handler method, issues no store update and
edits nothing: the world is left as it was. -/
theorem accessor_failure_is_returned {σ : Type} (o : objectLifecycleAdapter σ) (key : String)
    (obj : RuntimeObject) (e : Error) (w : World σ)
    (hacc : Accessor obj = .error e) :
    o.sync key (some obj) w = (some e, w) ∧
    result o key (some obj) w.st = some e ∧
    handlerCalls (actions o key (some obj) w.st) = [] ∧
    storeUpdates (actions o key (some obj) w.st) = [] ∧
    actions o key (some obj) w.st = [] := by
  cases obj with
  | typed t => simp [Accessor] at hacc
  | untyped e2 =>
    simp only [Accessor, Except.error.injEq] at hacc
    subst hacc
    exact ⟨rfl, rfl, rfl, rfl, rfl⟩

/-- Witness of C16: an object on which the accessor fails. -/
theorem accessor_failure_is_returned_witness :
    xAdapter.sync "k" (some (.untyped ⟨"object does not implement the Object interfaces"⟩))
        ⟨(), []⟩ =
      (some ⟨"object does not implement the Object interfaces"⟩, ⟨(), []⟩) ∧
    result xAdapter "k" (some (.untyped ⟨"object does not implement the Object interfaces"⟩))
        () = some ⟨"object does not implement the Object interfaces"⟩ ∧
    handlerCalls (actions xAdapter "k"
      (some (.untyped ⟨"object does not implement the Object interfaces"⟩)) ()) = [] ∧
    storeUpdates (actions xAdapter "k"
      (some (.untyped ⟨"object does not implement the Object interfaces"⟩)) ()) = [] ∧
    actions xAdapter "k"
      (some (.untyped ⟨"object does not implement the Object interfaces"⟩)) () = [] :=
  accessor_failure_is_returned xAdapter "k"
    (.untyped ⟨"object does not implement the Object interfaces"⟩)
    ⟨"object does not implement the Object interfaces"⟩ ⟨(), []⟩ rfl

/-! ## Two invocations in sequence -/

/-- An invocation whose actions are an `Initialize` call followed by a store
update ran the initialize branch with a succeeding handler. -/
theorem initialize_trace_inv {σ : Type} (o : objectLifecycleAdapter σ) (key : String)
    (t : TypedObject) (s : σ) (arg stored : TypedObject) (nm : String)
    (hfirst : actions o key (some (.typed t)) s = [Event.Initialize arg, Event.Update nm stored]) :
    t.meta.deletionTimestamp = none ∧ mapIndex t.meta.labels o.initializeKey ≠ "true" ∧
    arg = marked o.name o.initializeKey t ∧ stored = (o.lifecycle.Initialize arg s).obj ∧
    nm = stored.meta.name ∧ (o.lifecycle.Initialize arg s).err = none := by
  rcases actions_paths o key t s with
    ⟨_, _, ha, _⟩ | ⟨_, _, _, ha⟩ | ⟨_, _, _, ha, _⟩ | ⟨_, _, _, ha⟩ |
    ⟨hd, hl, he, ha, _⟩ | ⟨_, _, ha, _⟩
  · rw [ha] at hfirst; simp at hfirst
  · rw [ha] at hfirst; simp at hfirst
  · rw [ha] at hfirst; simp at hfirst
  · rw [ha] at hfirst; simp at hfirst
  · rw [ha] at hfirst
    simp only [List.cons.injEq, Event.Initialize.injEq, Event.Update.injEq, and_true] at hfirst
    obtain ⟨harg, hnm, hst⟩ := hfirst
    subst harg
    subst hst
    exact ⟨hd, hl, rfl, rfl, hnm.symm, he⟩
  · rw [ha] at hfirst; simp at hfirst

/-- An invocation whose actions are a `Finalize` call followed by a store
update ran the finalize branch with a succeeding handler. -/
theorem finalize_trace_inv {σ : Type} (o : objectLifecycleAdapter σ) (key : String)
    (t : TypedObject) (s : σ) (arg stored : TypedObject) (nm : String)
    (hfirst : actions o key (some (.typed t)) s = [Event.Finalize arg, Event.Update nm stored]) :
    t.meta.deletionTimestamp ≠ none ∧ o.name ∈ t.meta.finalizers ∧
    arg = stripped o.name t ∧ stored = (o.lifecycle.Finalize arg s).obj ∧
    nm = stored.meta.name ∧ (o.lifecycle.Finalize arg s).err = none := by
  rcases actions_paths o key t s with
    ⟨_, _, ha, _⟩ | ⟨_, _, _, ha⟩ | ⟨hd, hc, he, ha, _⟩ | ⟨_, _, _, ha⟩ |
    ⟨_, _, _, ha, _⟩ | ⟨_, _, ha, _⟩
  · rw [ha] at hfirst; simp at hfirst
  · rw [ha] at hfirst; simp at hfirst
  · rw [ha] at hfirst
    simp only [List.cons.injEq, Event.Finalize.injEq, Event.Update.injEq, and_true] at hfirst
    obtain ⟨harg, hnm, hst⟩ := hfirst
    subst harg
    subst hst
    exact ⟨hd, hc, rfl, rfl, hnm.symm, he⟩
  · rw [ha] at hfirst; simp at hfirst
  · rw [ha] at hfirst; simp at hfirst
  · rw [ha] at hfirst; simp at hfirst

theorem filter_append_token (n : String) (l : List String) (hnot : n ∉ l) :
    (l ++ [n]).filter (fun f => decide (f ≠ n)) = l := by
  rw [List.filter_append]
  have h1 : l.filter (fun f => decide (f ≠ n)) = l := by
    rw [List.filter_eq_self]
    intro a ha
    have : a ≠ n := fun e => hnot (e ▸ ha)
    simpa using this
  rw [h1]
  simp

/-- C13: idempotence after initialization.  For every object with metadata, no
deletion marker and a marker label that is not `"true"`, if a first `sync`
succeeds (`Initialize` and the store update succeed, and the handler leaves the
metadata untouched), then a second `sync` whose input is the object persisted
by the first calls `Updated` exactly once, does not call `Initialize`, and
issues no store update. -/
theorem second_sync_after_initialize_only_updates {σ : Type} (o : objectLifecycleAdapter σ)
    (key key2 : String) (t : TypedObject) (s s2 : σ) (arg stored : TypedObject) (nm : String)
    (hd : t.meta.deletionTimestamp = none)
    (_hl : mapIndex t.meta.labels o.initializeKey ≠ "true")
    (hfirst : actions o key (some (.typed t)) s = [Event.Initialize arg, Event.Update nm stored])
    (_hres : result o key (some (.typed t)) s = none)
    (hkeep : stored.meta = arg.meta) :
    actions o key2 (some (.typed stored)) s2 = [Event.Updated stored] ∧
    updatedCalls (actions o key2 (some (.typed stored)) s2) = [stored] ∧
    initializeCalls (actions o key2 (some (.typed stored)) s2) = [] ∧
    storeUpdates (actions o key2 (some (.typed stored)) s2) = [] ∧
    result o key2 (some (.typed stored)) s2 = (o.lifecycle.Updated stored s2).err := by
  obtain ⟨_, _, harg, _, _, _⟩ := initialize_trace_inv o key t s arg stored nm hfirst
  have hd2 : stored.meta.deletionTimestamp = none := by
    rw [hkeep, harg]; exact hd
  have hl2 : mapIndex stored.meta.labels o.initializeKey = "true" := by
    rw [hkeep, harg]
    have h := mapIndex_markLabels t.meta.labels o.initializeKey o.initializeKey
    simpa [marked] using h
  have hact : actions o key2 (some (.typed stored)) s2 = [Event.Updated stored] := by
    simp [actions, sync_updated o key2 stored ⟨s2, []⟩ hd2 hl2]
  have hres : result o key2 (some (.typed stored)) s2 = (o.lifecycle.Updated stored s2).err := by
    simp [result, sync_updated o key2 stored ⟨s2, []⟩ hd2 hl2]
  refine ⟨hact, ?_, ?_, ?_, hres⟩
  · rw [hact]; rfl
  · rw [hact]; rfl
  · rw [hact]; rfl

/-- Witness of C13: Scenario A followed by Scenario B. -/
theorem second_sync_after_initialize_only_updates_witness :
    actions xAdapter "k" (some (.typed scenarioB)) () = [Event.Updated scenarioB] ∧
    updatedCalls (actions xAdapter "k" (some (.typed scenarioB)) ()) = [scenarioB] ∧
    initializeCalls (actions xAdapter "k" (some (.typed scenarioB)) ()) = [] ∧
    storeUpdates (actions xAdapter "k" (some (.typed scenarioB)) ()) = [] ∧
    result xAdapter "k" (some (.typed scenarioB)) () = (xAdapter.lifecycle.Updated scenarioB ()).err :=
  second_sync_after_initialize_only_updates xAdapter "k" "k" scenarioA () () scenarioB scenarioB
    "x" rfl (by decide) (by decide) (by decide) rfl

/-- C14: round trip of the finalizer list.  For every live object with
metadata, a marker label that is not `"true"` and a finalizer list without the
adapter's token, take the object persisted by a successful initializing `sync`
(handler leaving the metadata untouched), set its deletion marker, and run
`sync` again: it calls `Finalize` exactly once, and neither `Initialize` nor
`Updated`, on an object whose finalizer list equals the original object's; when
that `Finalize` succeeds the single store update carries the object as the
handler left it, whose finalizer list, if the handler kept it, equals the
original object's. -/
theorem finalize_restores_original_finalizers {σ : Type} (o : objectLifecycleAdapter σ)
    (key key2 : String) (t : TypedObject) (s s2 : σ) (ts : Nat) (arg stored : TypedObject)
    (nm : String)
    (_hd : t.meta.deletionTimestamp = none)
    (_hl : mapIndex t.meta.labels o.initializeKey ≠ "true")
    (hnot : o.name ∉ t.meta.finalizers)
    (hfirst : actions o key (some (.typed t)) s = [Event.Initialize arg, Event.Update nm stored])
    (_hres : result o key (some (.typed t)) s = none)
    (hkeep : stored.meta = arg.meta) :
    ∃ arg2 rest,
      actions o key2 (some (.typed (setDeletionTimestamp ts stored))) s2 =
        Event.Finalize arg2 :: rest ∧
      arg2.meta.finalizers = t.meta.finalizers ∧
      finalizeCalls (Event.Finalize arg2 :: rest) = [arg2] ∧
      initializeCalls (Event.Finalize arg2 :: rest) = [] ∧
      updatedCalls (Event.Finalize arg2 :: rest) = [] ∧
      ((o.lifecycle.Finalize arg2 s2).err = none →
        storeUpdates (Event.Finalize arg2 :: rest) = [(o.lifecycle.Finalize arg2 s2).obj] ∧
        ((o.lifecycle.Finalize arg2 s2).obj.meta.finalizers = arg2.meta.finalizers →
          (o.lifecycle.Finalize arg2 s2).obj.meta.finalizers = t.meta.finalizers)) := by
  obtain ⟨_, _, harg, _, _, _⟩ := initialize_trace_inv o key t s arg stored nm hfirst
  have hfin : stored.meta.finalizers = t.meta.finalizers ++ [o.name] := by
    rw [hkeep, harg]; rfl
  have hd2 : (setDeletionTimestamp ts stored).meta.deletionTimestamp ≠ none := by
    simp [setDeletionTimestamp]
  have hc2 : o.name ∈ (setDeletionTimestamp ts stored).meta.finalizers := by
    simp [setDeletionTimestamp, hfin]
  have hstrip : (stripped o.name (setDeletionTimestamp ts stored)).meta.finalizers =
      t.meta.finalizers := by
    have h : (stripped o.name (setDeletionTimestamp ts stored)).meta.finalizers =
        (stored.meta.finalizers).filter (fun f => decide (f ≠ o.name)) := rfl
    rw [h, hfin, filter_append_token o.name t.meta.finalizers hnot]
  rcases Option.eq_none_or_eq_some
      (o.lifecycle.Finalize (stripped o.name (setDeletionTimestamp ts stored)) s2).err
    with he | ⟨e, he⟩
  · refine ⟨stripped o.name (setDeletionTimestamp ts stored),
      [Event.Update
        (o.lifecycle.Finalize (stripped o.name (setDeletionTimestamp ts stored)) s2).obj.meta.name
        (o.lifecycle.Finalize (stripped o.name (setDeletionTimestamp ts stored)) s2).obj],
      ?_, hstrip, rfl, rfl, rfl, ?_⟩
    · simp [actions, sync_finalize_ok o key2 (setDeletionTimestamp ts stored) ⟨s2, []⟩ hd2 hc2 he]
    · intro _
      refine ⟨rfl, ?_⟩
      intro hk
      rw [hk, hstrip]
  · refine ⟨stripped o.name (setDeletionTimestamp ts stored), [], ?_, hstrip, rfl, rfl, rfl, ?_⟩
    · simp [actions,
        sync_finalize_err o key2 (setDeletionTimestamp ts stored) ⟨s2, []⟩ e hd2 hc2 he]
    · intro hnone
      rw [he] at hnone
      cases hnone

/-- Witness of C14: Scenario A, then Scenario C. -/
theorem finalize_restores_original_finalizers_witness :
    ∃ arg2 rest,
      actions xAdapter "k" (some (.typed (setDeletionTimestamp 1 scenarioB))) () =
        Event.Finalize arg2 :: rest ∧
      arg2.meta.finalizers = scenarioA.meta.finalizers ∧
      finalizeCalls (Event.Finalize arg2 :: rest) = [arg2] ∧
      initializeCalls (Event.Finalize arg2 :: rest) = [] ∧
      updatedCalls (Event.Finalize arg2 :: rest) = [] ∧
      ((xAdapter.lifecycle.Finalize arg2 ()).err = none →
        storeUpdates (Event.Finalize arg2 :: rest) = [(xAdapter.lifecycle.Finalize arg2 ()).obj] ∧
        ((xAdapter.lifecycle.Finalize arg2 ()).obj.meta.finalizers = arg2.meta.finalizers →
          (xAdapter.lifecycle.Finalize arg2 ()).obj.meta.finalizers =
            scenarioA.meta.finalizers)) :=
  finalize_restores_original_finalizers xAdapter "k" "k" scenarioA () () 1 scenarioB scenarioB
    "x" rfl (by decide) (by decide) (by decide) (by decide) rfl

/-- C15: finalization is terminal for the adapter.  For every object on which a
`sync` took the finalize branch and succeeded, with a handler that leaves the
metadata untouched, every later `sync` whose input is the persisted object
(its deletion marker still present) returns success with no handler call and no
store update, so `Finalize` is never run a second time. -/
theorem sync_after_finalize_is_noop {σ : Type} (o : objectLifecycleAdapter σ)
    (key key2 : String) (t : TypedObject) (s : σ) (w2 : World σ) (arg stored : TypedObject)
    (nm : String)
    (hfirst : actions o key (some (.typed t)) s = [Event.Finalize arg, Event.Update nm stored])
    (_hres : result o key (some (.typed t)) s = none)
    (hkeep : stored.meta = arg.meta) :
    stored.meta.deletionTimestamp ≠ none ∧
    o.sync key2 (some (.typed stored)) w2 = (none, w2) ∧
    actions o key2 (some (.typed stored)) w2.st = [] ∧
    result o key2 (some (.typed stored)) w2.st = none ∧
    finalizeCalls (actions o key2 (some (.typed stored)) w2.st) = [] ∧
    handlerCalls (actions o key2 (some (.typed stored)) w2.st) = [] ∧
    storeUpdates (actions o key2 (some (.typed stored)) w2.st) = [] := by
  obtain ⟨hd, _, harg, _, _, _⟩ := finalize_trace_inv o key t s arg stored nm hfirst
  have hd2 : stored.meta.deletionTimestamp ≠ none := by
    rw [hkeep, harg]; exact hd
  have hc2 : o.name ∉ stored.meta.finalizers := by
    rw [hkeep, harg]; simp [stripped, List.mem_filter]
  have hact : actions o key2 (some (.typed stored)) w2.st = [] := by
    simp [actions, sync_skip o key2 stored ⟨w2.st, []⟩ hd2 hc2]
  have hres : result o key2 (some (.typed stored)) w2.st = none := by
    simp [result, sync_skip o key2 stored ⟨w2.st, []⟩ hd2 hc2]
  refine ⟨hd2, sync_skip o key2 stored w2 hd2 hc2, hact, hres, ?_, ?_, ?_⟩
  · rw [hact]; rfl
  · rw [hact]; rfl
  · rw [hact]; rfl

/-- Witness of C15: Scenario C, then a `sync` of what it persisted. -/
theorem sync_after_finalize_is_noop_witness :
    (stripped "x-adapter" scenarioC).meta.deletionTimestamp ≠ none ∧
    xAdapter.sync "k" (some (.typed (stripped "x-adapter" scenarioC))) ⟨(), []⟩ =
      (none, ⟨(), []⟩) ∧
    actions xAdapter "k" (some (.typed (stripped "x-adapter" scenarioC))) () = [] ∧
    result xAdapter "k" (some (.typed (stripped "x-adapter" scenarioC))) () = none ∧
    finalizeCalls (actions xAdapter "k" (some (.typed (stripped "x-adapter" scenarioC))) ()) = [] ∧
    handlerCalls (actions xAdapter "k" (some (.typed (stripped "x-adapter" scenarioC))) ()) = [] ∧
    storeUpdates (actions xAdapter "k" (some (.typed (stripped "x-adapter" scenarioC))) ()) = [] :=
  sync_after_finalize_is_noop xAdapter "k" "k" scenarioC () ⟨(), []⟩
    (stripped "x-adapter" scenarioC) (stripped "x-adapter" scenarioC) "x"
    (by decide) (by decide) rfl

/-! ## Frame properties -/

theorem initializeKey_injective {σ τ : Type} (oa : objectLifecycleAdapter σ)
    (ob : objectLifecycleAdapter τ) (h : oa.initializeKey = ob.initializeKey) :
    oa.name = ob.name := by
  unfold objectLifecycleAdapter.initializeKey at h
  have h2 := congrArg String.data h
  simp only [String.data_append, List.append_cancel_left_eq] at h2
  exact String.ext h2

theorem count_stripped {n b : String} (t : TypedObject) (hab : n ≠ b) :
    (stripped n t).meta.finalizers.count b = t.meta.finalizers.count b := by
  have h : (stripped n t).meta.finalizers =
      t.meta.finalizers.filter (fun f => decide (f ≠ n)) := rfl
  rw [h]
  apply List.count_filter
  simpa using fun e => hab e.symm

theorem count_marked {n b : String} (k : String) (t : TypedObject) (hab : n ≠ b) :
    (marked n k t).meta.finalizers.count b = t.meta.finalizers.count b := by
  have h : (marked n k t).meta.finalizers = t.meta.finalizers ++ [n] := rfl
  rw [h, List.count_append, List.count_singleton]
  simp [hab]

/-- C17, counterexample: adapter `x-adapter` runs over a handler whose
`Initialize` appends the token `other-adapter` to the object it is given; the
object `sync` then hands to the store holds that token once, the input object
not at all. -/
theorem update_carries_handler_edits :
    meddledAdapter.name ≠ "other-adapter" ∧
    scenarioA.meta.finalizers.count "other-adapter" = 0 ∧
    ∃ stored, stored ∈ storeUpdates (actions meddledAdapter "k" (some (.typed scenarioA)) ()) ∧
      stored.meta.finalizers.count "other-adapter" = 1 ∧
      ¬ stored.meta.finalizers.count "other-adapter" =
        scenarioA.meta.finalizers.count "other-adapter" :=
  ⟨by decide, by decide,
    ⟨⟨"x", none, ["x-adapter", "other-adapter"],
      some [("io.cattle.lifecycle.initialized.x-adapter", "true")]⟩, 0⟩,
    by decide, by decide, by decide⟩

/-- C17, amended: independence of cooperating adapters.  For every two adapters
with different names the initialization-marker keys are different, and for
every object with metadata, the object that the first adapter's `sync` passes
to its handler has the same value for the second adapter's marker label and
the same number of occurrences of the second adapter's token as the input
object; the object it passes to the store has them too when the handler call
of the invocation left the metadata untouched. -/
theorem other_adapter_state_is_kept {σ τ : Type} (oa : objectLifecycleAdapter σ)
    (ob : objectLifecycleAdapter τ) (key : String) (t : TypedObject) (s : σ)
    (hab : oa.name ≠ ob.name) :
    oa.initializeKey ≠ ob.initializeKey ∧
    (∀ ev ∈ handlerCalls (actions oa key (some (.typed t)) s),
      mapIndex ev.object.meta.labels ob.initializeKey =
        mapIndex t.meta.labels ob.initializeKey ∧
      ev.object.meta.finalizers.count ob.name = t.meta.finalizers.count ob.name) ∧
    ((∀ ev ∈ handlerCalls (actions oa key (some (.typed t)) s), ∀ h,
        handlerRun oa ev s = some h → h.obj.meta = ev.object.meta) →
      ∀ stored ∈ storeUpdates (actions oa key (some (.typed t)) s),
        mapIndex stored.meta.labels ob.initializeKey =
          mapIndex t.meta.labels ob.initializeKey ∧
        stored.meta.finalizers.count ob.name = t.meta.finalizers.count ob.name) := by
  have hkey : oa.initializeKey ≠ ob.initializeKey :=
    fun h => hab (initializeKey_injective oa ob h)
  have hkey2 : ¬ ob.initializeKey = oa.initializeKey := fun h => hkey h.symm
  have hstrip : mapIndex (stripped oa.name t).meta.labels ob.initializeKey =
        mapIndex t.meta.labels ob.initializeKey ∧
      (stripped oa.name t).meta.finalizers.count ob.name = t.meta.finalizers.count ob.name :=
    ⟨rfl, count_stripped t hab⟩
  have hmark : mapIndex (marked oa.name oa.initializeKey t).meta.labels ob.initializeKey =
        mapIndex t.meta.labels ob.initializeKey ∧
      (marked oa.name oa.initializeKey t).meta.finalizers.count ob.name =
        t.meta.finalizers.count ob.name := by
    refine ⟨?_, count_marked oa.initializeKey t hab⟩
    have h := mapIndex_markLabels t.meta.labels oa.initializeKey ob.initializeKey
    rw [if_neg hkey2] at h
    exact h
  refine ⟨hkey, ?_, ?_⟩
  · intro ev hev
    rcases actions_paths oa key t s with
      ⟨_, _, ha, _⟩ | ⟨_, _, _, ha⟩ | ⟨_, _, _, ha, _⟩ | ⟨_, _, _, ha⟩ |
      ⟨_, _, _, ha, _⟩ | ⟨_, _, ha, _⟩
    · simp [ha, handlerCalls] at hev
    · simp [ha, handlerCalls] at hev; subst hev; exact hstrip
    · simp [ha, handlerCalls] at hev; subst hev; exact hstrip
    · simp [ha, handlerCalls] at hev; subst hev; exact hmark
    · simp [ha, handlerCalls] at hev; subst hev; exact hmark
    · simp [ha, handlerCalls] at hev; subst hev; exact ⟨rfl, rfl⟩
  · intro hkeep stored hstored
    rcases actions_paths oa key t s with
      ⟨_, _, ha, _⟩ | ⟨_, _, _, ha⟩ | ⟨_, _, _, ha, _⟩ | ⟨_, _, _, ha⟩ |
      ⟨_, _, _, ha, _⟩ | ⟨_, _, ha, _⟩
    · simp [ha, storeUpdates] at hstored
    · simp [ha, storeUpdates] at hstored
    · rw [ha] at hkeep hstored
      simp [storeUpdates] at hstored
      subst hstored
      have hk := hkeep (Event.Finalize (stripped oa.name t)) (by simp [handlerCalls]) _ rfl
      simp only [Event.object] at hk
      rw [hk]
      exact hstrip
    · simp [ha, storeUpdates] at hstored
    · rw [ha] at hkeep hstored
      simp [storeUpdates] at hstored
      subst hstored
      have hk := hkeep (Event.Initialize (marked oa.name oa.initializeKey t))
        (by simp [handlerCalls]) _ rfl
      simp only [Event.object] at hk
      rw [hk]
      exact hmark
    · simp [ha, storeUpdates] at hstored

/-- Witness of the amended C17: `x-adapter` beside the meddling adapter renamed
`other-adapter`, on Scenario A. -/
theorem other_adapter_state_is_kept_witness :
    xAdapter.initializeKey ≠
      objectLifecycleAdapter.initializeKey ⟨"other-adapter", okHandler, okClient⟩ ∧
    (∀ ev ∈ handlerCalls (actions xAdapter "k" (some (.typed scenarioA)) ()),
      mapIndex ev.object.meta.labels
          (objectLifecycleAdapter.initializeKey ⟨"other-adapter", okHandler, okClient⟩) =
        mapIndex scenarioA.meta.labels
          (objectLifecycleAdapter.initializeKey ⟨"other-adapter", okHandler, okClient⟩) ∧
      ev.object.meta.finalizers.count "other-adapter" =
        scenarioA.meta.finalizers.count "other-adapter") ∧
    ((∀ ev ∈ handlerCalls (actions xAdapter "k" (some (.typed scenarioA)) ()), ∀ h,
        handlerRun xAdapter ev () = some h → h.obj.meta = ev.object.meta) →
      ∀ stored ∈ storeUpdates (actions xAdapter "k" (some (.typed scenarioA)) ()),
        mapIndex stored.meta.labels
            (objectLifecycleAdapter.initializeKey ⟨"other-adapter", okHandler, okClient⟩) =
          mapIndex scenarioA.meta.labels
            (objectLifecycleAdapter.initializeKey ⟨"other-adapter", okHandler, okClient⟩) ∧
        stored.meta.finalizers.count "other-adapter" =
          scenarioA.meta.finalizers.count "other-adapter") :=
  other_adapter_state_is_kept xAdapter ⟨"other-adapter", okHandler, okClient⟩ "k" scenarioA ()
    (by decide)

/-- C18: the key argument of `sync` is never used.  For every object, handler
and store and every two keys, `sync` returns the same result and performs the
same handler calls and store updates, leaving the same world; every store
update is issued under the name read from the metadata of the object it
carries, not under the key. -/
theorem key_is_ignored {σ : Type} (o : objectLifecycleAdapter σ) (k1 k2 : String)
    (obj : Option RuntimeObject) (w : World σ) :
    o.sync k1 obj w = o.sync k2 obj w ∧
    result o k1 obj w.st = result o k2 obj w.st ∧
    actions o k1 obj w.st = actions o k2 obj w.st ∧
    (∀ nm stored, Event.Update nm stored ∈ actions o k1 obj w.st → nm = stored.meta.name) := by
  refine ⟨rfl, rfl, rfl, ?_⟩
  intro nm stored hmem
  cases obj with
  | none => simp [(actions_nil o k1 w.st).1] at hmem
  | some ro =>
    cases ro with
    | untyped e => simp [(actions_untyped o k1 e w.st).1] at hmem
    | typed t =>
      rcases actions_paths o k1 t w.st with
        ⟨_, _, ha, _⟩ | ⟨_, _, _, ha⟩ | ⟨_, _, _, ha, _⟩ | ⟨_, _, _, ha⟩ |
        ⟨_, _, _, ha, _⟩ | ⟨_, _, ha, _⟩
      · simp [ha] at hmem
      · simp [ha] at hmem
      · simp [ha] at hmem
        obtain ⟨h1, h2⟩ := hmem
        rw [h1, h2]
      · simp [ha] at hmem
      · simp [ha] at hmem
        obtain ⟨h1, h2⟩ := hmem
        rw [h1, h2]
      · simp [ha] at hmem

/-- C19: frame of the metadata edits.  For every object with metadata, the
object `sync` passes to `Finalize` has the same name, deletion marker and label
map as the input (only the finalizer list differs); the object it passes to
`Initialize` has the same name and deletion marker and the same value for every
label key other than the adapter's initialization-marker key; and the object it
passes to `Updated` equals the input in name, deletion marker, finalizer list
and labels. -/
theorem edits_touch_only_token_and_marker {σ : Type} (o : objectLifecycleAdapter σ)
    (key : String) (t : TypedObject) (s : σ) :
    (∀ arg ∈ finalizeCalls (actions o key (some (.typed t)) s),
      arg.meta.name = t.meta.name ∧
      arg.meta.deletionTimestamp = t.meta.deletionTimestamp ∧
      arg.meta.labels = t.meta.labels ∧ arg.spec = t.spec) ∧
    (∀ arg ∈ initializeCalls (actions o key (some (.typed t)) s),
      arg.meta.name = t.meta.name ∧
      arg.meta.deletionTimestamp = t.meta.deletionTimestamp ∧
      (∀ k, k ≠ "io.cattle.lifecycle.initialized." ++ o.name →
        mapIndex arg.meta.labels k = mapIndex t.meta.labels k) ∧ arg.spec = t.spec) ∧
    (∀ arg ∈ updatedCalls (actions o key (some (.typed t)) s),
      arg.meta.name = t.meta.name ∧
      arg.meta.deletionTimestamp = t.meta.deletionTimestamp ∧
      arg.meta.finalizers = t.meta.finalizers ∧
      arg.meta.labels = t.meta.labels ∧ arg = t) := by
  have hkey : o.initializeKey = "io.cattle.lifecycle.initialized." ++ o.name := rfl
  rw [← hkey]
  have hmark : ∀ k, k ≠ o.initializeKey →
      mapIndex (marked o.name o.initializeKey t).meta.labels k = mapIndex t.meta.labels k := by
    intro k hk
    have h := mapIndex_markLabels t.meta.labels o.initializeKey k
    rw [if_neg hk] at h
    exact h
  rcases actions_paths o key t s with
    ⟨_, _, ha, _⟩ | ⟨_, _, _, ha⟩ | ⟨_, _, _, ha, _⟩ | ⟨_, _, _, ha⟩ |
    ⟨_, _, _, ha, _⟩ | ⟨_, _, ha, _⟩
  · rw [ha]; simp [finalizeCalls, initializeCalls, updatedCalls]
  · rw [ha]; simp [finalizeCalls, initializeCalls, updatedCalls, stripped]
  · rw [ha]; simp [finalizeCalls, initializeCalls, updatedCalls, stripped]
  · rw [ha]
    simp only [finalizeCalls, initializeCalls, updatedCalls, List.not_mem_nil, false_implies,
      implies_true, List.mem_singleton, forall_eq, true_and, and_true]
    exact ⟨rfl, rfl, hmark, rfl⟩
  · rw [ha]
    simp only [finalizeCalls, initializeCalls, updatedCalls, List.not_mem_nil, false_implies,
      implies_true, List.mem_singleton, forall_eq, true_and, and_true]
    exact ⟨rfl, rfl, hmark, rfl⟩
  · rw [ha]; simp [finalizeCalls, initializeCalls, updatedCalls]

end Lifecycle
